import Mathlib

/-!
Shallow embedding of the Twitch chat client library (source files
`src/Message.cpp` and `src/Messaging.cpp`) together with theorems settling
the specification claims.

Modelling conventions:
- Wire bytes and C++ `std::string` values are modelled as `List Char`
  (abbreviation `Str`).
- `std::vector` / `std::list` / `std::deque` become `List`; `std::set` of
  strings becomes a duplicate-free insertion list queried by membership;
  `std::map` becomes an association list with insert-or-assign semantics.
- Out-of-bounds element accesses (`std::vector::operator[]` past the end,
  `std::string::substr` with an out-of-range position) are undefined
  behaviour / exceptions in the C++ source; functions that can perform such
  an access return `Option` and yield `none` in exactly those situations.
- Calls made on the transport and on the user-event sink are collected in
  an output trace (`Out`).  Diagnostic messages are not modelled.
- The monotonic clock returns seconds as a real number; it is modelled by
  `Rat` (the values involved are only compared and added, never divided).
-/

namespace Twitch

/-- C++ byte strings are modelled as lists of characters. -/
abbrev Str := List Char

/-- Line terminator for Twitch chat lines (constant `CRLF` of the source). -/
def CRLF : Str := "\r\n".data

/-! ### String constants appearing in the source -/

/-- Literal "LS" (second `CAP` parameter). -/
def sLS : Str := "LS".data

/-- Literal "*" (continuation marker / global-notice channel). -/
def sStar : Str := "*".data

/-- Literal "ACK". -/
def sACK : Str := "ACK".data

/-- Literal "NAK". -/
def sNAK : Str := "NAK".data

/-- Capability name `twitch.tv/commands`. -/
def capCommands : Str := "twitch.tv/commands".data

/-- Capability name `twitch.tv/membership`. -/
def capMembership : Str := "twitch.tv/membership".data

/-- Capability name `twitch.tv/tags`. -/
def capTags : Str := "twitch.tv/tags".data

/-- Outbound line `CAP LS 302`. -/
def sCapLs302 : Str := "CAP LS 302".data

/-- Outbound line `CAP REQ :twitch.tv/commands twitch.tv/membership twitch.tv/tags`. -/
def sCapReq : Str := "CAP REQ :twitch.tv/commands twitch.tv/membership twitch.tv/tags".data

/-- Outbound line `CAP END`. -/
def sCapEnd : Str := "CAP END".data

/-- Fragment `PASS oauth:`. -/
def sPassOauth : Str := "PASS oauth:".data

/-- Fragment `NICK ` (with trailing space). -/
def sNickSp : Str := "NICK ".data

/-- Fragment `PONG :`. -/
def sPongColon : Str := "PONG :".data

/-- Fragment `QUIT :`. -/
def sQuitColon : Str := "QUIT :".data

/-- Fragment `JOIN #`. -/
def sJoinHash : Str := "JOIN #".data

/-- Fragment `PART #`. -/
def sPartHash : Str := "PART #".data

/-- Fragment `PRIVMSG #`. -/
def sPrivmsgHash : Str := "PRIVMSG #".data

/-- Fragment ` :` separating a channel from a message body. -/
def sSpColon : Str := " :".data

/-- Fragment `@reply-parent-msg-id=`. -/
def sReplyParent : Str := "@reply-parent-msg-id=".data

/-- Fragment ` PRIVMSG #` used after a reply-parent tag. -/
def sSpPrivmsgHash : Str := " PRIVMSG #".data

/-- Fragment `PRIVMSG #jtv :.w ` used for whispers. -/
def sWhisperPre : Str := "PRIVMSG #jtv :.w ".data

/-- A single space. -/
def sSp : Str := " ".data

/-- Farewell for the `LogIn` stage timeout. -/
def fwCapList : Str := "Timeout waiting for capability list".data

/-- Farewell for the `RequestCaps` stage timeout. -/
def fwCapReq : Str := "Timeout waiting for response to capability request".data

/-- Farewell for the `AwaitMotd` stage timeout. -/
def fwMotd : Str := "Timeout waiting for MOTD".data

/-- Login-failure notice text `Login unsuccessful`. -/
def nLoginUnsuccessful : Str := "Login unsuccessful".data

/-- Login-failure notice text `Login authentication failed`. -/
def nLoginAuthFailed : Str := "Login authentication failed".data

/-- Server command `CAP`. -/
def cmdCAP : Str := "CAP".data

/-- Server command `376` (end of MOTD). -/
def cmdMotd : Str := "376".data

/-- Server command `NOTICE`. -/
def cmdNOTICE : Str := "NOTICE".data

/-- Server command `PING`. -/
def cmdPING : Str := "PING".data

/-- Server command `HOSTTARGET`. -/
def cmdHOSTTARGET : Str := "HOSTTARGET".data

/-- Tag name `msg-id`. -/
def kMsgId : Str := "msg-id".data

/-- Literal "-" (host-mode-off marker of `HOSTTARGET`). -/
def sDash : Str := "-".data

/-! ### StringExtensions::Split (external helper used by the source)

`StringExtensions::Split` scans the string left to right, cutting at every
occurrence of the delimiter: the empty string yields no pieces, and a
trailing delimiter yields no trailing empty piece (the loop stops when the
remainder becomes empty). -/

/-- Model of `StringExtensions::Split`. -/
def splitChar (d : Char) : Str → List Str
  | [] => []
  | c :: rest =>
    if c = d then [] :: splitChar d rest
    else
      match splitChar d rest with
      | [] => [[c]]
      | a :: as => (c :: a) :: as

/-! ### sscanf helpers -/

/-- Characters skipped by `sscanf` before a numeric conversion. -/
def isScanSpace (c : Char) : Bool :=
  c = ' ' ∨ c = '\t' ∨ c = '\n' ∨ c = '\x0b' ∨ c = '\x0c' ∨ c = '\r'

/-- Numeric value of a list of decimal digits. -/
def natOfDigits (ds : Str) : Nat :=
  ds.foldl (fun n c => n * 10 + (c.toNat - 48)) 0

/-- Model of `sscanf(s, "%zu", &out)`: skip leading whitespace, accept an
optional sign, then at least one decimal digit; `none` when no conversion
is performed (the C++ callers then assign 0 themselves).  A negative input
wraps around modulo 2^64 as `size_t` arithmetic does. -/
def parseSizeT (s : Str) : Option Nat :=
  let s1 := s.dropWhile isScanSpace
  let signed := s1.head? = some '-'
  let s2 := if s1.head? = some '-' ∨ s1.head? = some '+' then s1.tail else s1
  let ds := s2.takeWhile Char.isDigit
  if ds = [] then none
  else
    let v := natOfDigits ds % 2 ^ 64
    some (if signed then (2 ^ 64 - v) % 2 ^ 64 else v)

/-! ### Tag parsing (`src/Message.cpp`) -/

/-- Escape flag of `SplitNameValue` after scanning a string, starting from
the given flag: a backslash seen with the flag clear sets it, and any
character seen with the flag set clears it. -/
def escScan : Bool → Str → Bool
  | e, [] => e
  | e, c :: rest => escScan (if e then false else c = '\\') rest

/-- Escape flag of the `SplitNameValue` scan after a whole string. -/
def escAfter (s : Str) : Bool := escScan false s

/-- Whether the `SplitNameValue` scan starting from the given escape flag
meets no unescaped equal sign. -/
def noUnescapedEqFrom : Bool → Str → Bool
  | _, [] => true
  | e, c :: rest =>
    if e then noUnescapedEqFrom false rest
    else if c = '\\' then noUnescapedEqFrom true rest
    else if c = '=' then false
    else noUnescapedEqFrom false rest

/-- Whether a string contains no unescaped equal sign. -/
def noUnescapedEq (s : Str) : Bool := noUnescapedEqFrom false s

/-- Worker loop of `SplitNameValue`: `acc` holds the characters read so far
in reverse; cutting happens at the first equal sign seen with the escape
flag clear. -/
def splitNameValueGo (e : Bool) (acc : Str) : Str → Str × Str
  | [] => (acc.reverse, [])
  | c :: rest =>
    if e then splitNameValueGo false (c :: acc) rest
    else if c = '\\' then splitNameValueGo true (c :: acc) rest
    else if c = '=' then (acc.reverse, rest)
    else splitNameValueGo false (c :: acc) rest

/-- Model of `SplitNameValue` (`src/Message.cpp`): break the string at the
first position of an unescaped equal sign. -/
def splitNameValue (s : Str) : Str × Str := splitNameValueGo false [] s

/-- Insert-or-assign on an association list, modelling assignment through
`std::map::operator[]`. -/
def mapInsert (m : List (Str × Str)) (k v : Str) : List (Str × Str) :=
  match m with
  | [] => [(k, v)]
  | (k', v') :: rest => if k' = k then (k, v) :: rest else (k', v') :: mapInsert rest k v

/-- Lookup on an association list, modelling `std::map::find`. -/
def mapFind? (m : List (Str × Str)) (k : Str) : Option Str :=
  match m with
  | [] => none
  | (k', v') :: rest => if k' = k then some v' else mapFind? rest k

/-- Tags of a message.  The source's `TagsInfo` also carries typed
projections (`badges`, `color`, `displayName`, `emotes`, `timestamp`,
`channelId`, `userId`, `id`) computed from the same name/value pairs; they
never feed back into `allTags` and no claim concerns them, so only
`allTags` is carried here. -/
structure TagsInfo where
  allTags : List (Str × Str)
deriving DecidableEq

/-- The empty tag collection. -/
def emptyTags : TagsInfo := ⟨[]⟩

/-- Tag names whose values additionally receive a typed projection in the
source's `ParseTags`. -/
def typedTagKeys : List Str :=
  ["badges".data, "color".data, "display-name".data, "emotes".data,
   "tmi-sent-ts".data, "room-id".data, "user-id".data, "target-user-id".data,
   "id".data]

/-- Model of `ParseTags` (`src/Message.cpp`): split the raw tag string on
every `;`, split each fragment at its first unescaped `=`, and assign
`allTags[name] = value` in order. -/
def parseTags (unparsedTags : Str) : TagsInfo :=
  (splitChar ';' unparsedTags).foldl
    (fun ti frag =>
      let nv := splitNameValue frag
      ⟨mapInsert ti.allTags nv.1 nv.2⟩)
    emptyTags

/-- Names of the fragments of a raw tag string, in order. -/
def tagNames (s : Str) : List Str :=
  (splitChar ';' s).map (fun f => (splitNameValue f).1)

/-- Modelled from the spec: the raw value a tag would have were values
delimited by the next *unescaped* `;` — scan forward, treating a character
after a backslash as escaped, and stop right before the first unescaped
`;`.  This is the reading of claim C6; the source instead cuts at every
`;`. -/
def valueToNextUnescapedSemicolon : Str → Str
  | [] => []
  | c :: rest =>
    if c = '\\' then
      match rest with
      | [] => ['\\']
      | d :: rest' => '\\' :: d :: valueToNextUnescapedSemicolon rest'
    else if c = ';' then []
    else c :: valueToNextUnescapedSemicolon rest

/-! ### Line parser (`Twitch::Message::Parse`, `src/Message.cpp`) -/

/-- States of the nine-state line-scanning machine of `Message::Parse`. -/
inductive PState
  | lineFirstCharacter
  | tagsState
  | prefixOrCommandFirstCharacter
  | prefixPart
  | commandFirstCharacter
  | commandNotFirstCharacter
  | parameterFirstCharacter
  | parameterNotFirstCharacter
  | trailer
deriving DecidableEq

/-- Scanning state of `Message::Parse`: machine state plus the message
fields accumulated so far (`pfx` models the source's `prefix` field) and
the raw tag string. -/
structure ParseSt where
  state : PState
  pfx : Str
  command : Str
  parameters : List Str
  unparsedTags : Str
deriving DecidableEq

/-- Append one character to the last accumulated parameter, modelling
`message.parameters.back() += c` (`back()` is only ever invoked with a
non-empty parameter vector). -/
def appendLast : List Str → Char → List Str
  | [], _ => []
  | [p], c => [p ++ [c]]
  | p :: ps, c => p :: appendLast ps c

/-- One character step of the `Message::Parse` state machine. -/
def step (ps : ParseSt) (c : Char) : ParseSt :=
  match ps.state with
  | .lineFirstCharacter =>
    if c = '@' then { ps with state := .tagsState }
    else if c = ':' then { ps with state := .prefixPart }
    else { ps with state := .commandNotFirstCharacter, command := ps.command ++ [c] }
  | .tagsState =>
    if c = ' ' then { ps with state := .prefixOrCommandFirstCharacter }
    else { ps with unparsedTags := ps.unparsedTags ++ [c] }
  | .prefixOrCommandFirstCharacter =>
    if c = ':' then { ps with state := .prefixPart }
    else { ps with state := .commandNotFirstCharacter, command := ps.command ++ [c] }
  | .prefixPart =>
    if c = ' ' then { ps with state := .commandFirstCharacter }
    else { ps with pfx := ps.pfx ++ [c] }
  | .commandFirstCharacter =>
    if c = ' ' then ps
    else { ps with state := .commandNotFirstCharacter, command := ps.command ++ [c] }
  | .commandNotFirstCharacter =>
    if c = ' ' then { ps with state := .parameterFirstCharacter }
    else { ps with command := ps.command ++ [c] }
  | .parameterFirstCharacter =>
    if c = ':' then { ps with state := .trailer, parameters := ps.parameters ++ [[]] }
    else if c = ' ' then ps
    else { ps with state := .parameterNotFirstCharacter, parameters := ps.parameters ++ [[c]] }
  | .parameterNotFirstCharacter =>
    if c = ' ' then { ps with state := .parameterFirstCharacter }
    else { ps with parameters := appendLast ps.parameters c }
  | .trailer => { ps with parameters := appendLast ps.parameters c }

/-- Initial scanning state. -/
def initParseSt : ParseSt := ⟨.lineFirstCharacter, [], [], [], []⟩

/-- Run the scanning machine over a list of characters. -/
def runFrom (ps : ParseSt) (line : Str) : ParseSt := line.foldl step ps

/-- Final states in which the source clears `command` to mark the line
as malformed. -/
def badFinalState : PState → Bool
  | .lineFirstCharacter => true
  | .tagsState => true
  | .prefixOrCommandFirstCharacter => true
  | .prefixPart => true
  | .commandFirstCharacter => true
  | _ => false

/-- A parsed message: prefix (field `pfx`), command (empty iff the line was
malformed), parameters, and tags. -/
structure Message where
  pfx : Str
  command : Str
  parameters : List Str
  tags : TagsInfo
deriving DecidableEq

/-- Unpack one line (without its CRLF) into a message, as the scanning loop
and the epilogue of `Message::Parse` do. -/
def parseLine (line : Str) : Message :=
  let st := runFrom initParseSt line
  { pfx := st.pfx
    command := if badFinalState st.state then [] else st.command
    parameters := st.parameters
    tags := parseTags st.unparsedTags }

/-- Split a buffer at its first CRLF: `some (pre, post)` with
`buffer = pre ++ CRLF ++ post` and no CRLF inside `pre`, or `none` when the
buffer holds no CRLF.  Models `dataReceived.find(CRLF)` followed by the two
`substr` calls. -/
def splitAtCRLF : Str → Option (Str × Str)
  | [] => none
  | c :: rest =>
    if c = '\r' ∧ rest.head? = some '\n' then some ([], rest.tail)
    else (splitAtCRLF rest).map (fun p => (c :: p.1, p.2))

/-- Model of `Twitch::Message::Parse`: `none` when the buffer holds no
complete line (the C++ function then returns `false` leaving the buffer
untouched); otherwise the parsed message together with the new buffer
contents (the suffix after the first CRLF). -/
def messageParse (dataReceived : Str) : Option (Message × Str) :=
  match splitAtCRLF dataReceived with
  | none => none
  | some (line, rest) => some (parseLine line, rest)

/-! ### Worker data model (`src/Messaging.cpp`) -/

/-- Types of actions of the worker (`Action::Type`). -/
inductive ActionType
  | LogIn
  | RequestCaps
  | AwaitMotd
  | LogOut
  | ProcessMessagesReceived
  | ServerDisconnected
  | Join
  | Leave
  | SendMessage
  | SendWhisper
deriving DecidableEq

/-- An action for the worker to perform or await (struct `Action`). -/
structure Action where
  type : ActionType
  nickname : Str
  token : Str
  message : Str
  parent : Str
  anonymous : Bool
  expiration : Rat
deriving DecidableEq

/-- Notice event payload (fields of `NoticeInfo` used by the model). -/
structure NoticeInfo where
  channel : Str
  message : Str
  id : Str
deriving DecidableEq

/-- Host event payload (`HostInfo`). -/
structure HostInfo where
  hosting : Str
  hostOn : Bool
  beingHosted : Str
  viewers : Nat
deriving DecidableEq

/-- Observable calls made by the worker: sends on the transport, the
transport `Disconnect`, and user-event callbacks.  Only the callbacks
reachable from the modelled handlers are listed; the remaining command
handlers of the source invoke further callbacks but never touch the
session state. -/
inductive Out
  | send (bytes : Str)
  | transportDisconnect
  | userLogIn
  | userLogOut
  | userNotice (n : NoticeInfo)
  | userHost (h : HostInfo)
deriving DecidableEq

/-- Worker-private session state (the fields of `Messaging::Impl` owned by
the worker thread).  `connection` records whether a transport handle is
held (`connection != nullptr`), whether or not its `Connect()` succeeded. -/
structure MState where
  connection : Bool
  dataReceived : Str
  anonymous : Bool
  loggedIn : Bool
  actionsAwaitingResponses : List Action
  capsSupported : List Str
deriving DecidableEq

/-- The five-second handshake timeout (`LOG_IN_TIMEOUT_SECONDS`). -/
def LOG_IN_TIMEOUT_SECONDS : Rat := 5

/-- Model of `SendLineToTwitchServer`: the transport receives the raw line
with CRLF appended (the diagnostic copy of the line is not modelled). -/
def sendLineToTwitchServer (rawLine : Str) : Out := .send (rawLine ++ CRLF)

/-- Insert a string into a string set (`std::set<std::string>::insert`),
keeping the model list duplicate-free. -/
def setInsert (s : List Str) (x : Str) : List Str :=
  if x ∈ s then s else s ++ [x]

/-- Insert a range of strings into a string set. -/
def setInsertMany (s : List Str) (xs : List Str) : List Str :=
  xs.foldl setInsert s

/-- New expiration given the optional time keeper: `now + 5` seconds when a
clock is configured, otherwise the action's expiration is left unchanged. -/
def expirationAfter (tk : Option Rat) (a : Action) : Rat :=
  match tk with
  | some t => t + LOG_IN_TIMEOUT_SECONDS
  | none => a.expiration

/-- Model of `RequestCapabilities`: sends `CAP REQ`, mutates the action to
kind `RequestCaps` with refreshed expiration.  The C++ function pushes the
mutated action onto `actionsAwaitingResponses` itself; here the new entry
is returned and appended by the awaiting-actions loop. -/
def requestCapabilities (tk : Option Rat) (a : Action) : Action × List Out :=
  ({ a with type := .RequestCaps, expiration := expirationAfter tk a },
   [sendLineToTwitchServer sCapReq])

/-- Model of `EndCapabilitiesHandshakeAndAuthenticate`: sends `CAP END`,
then `PASS oauth:<token>` unless anonymous, then `NICK <nickname>`, and
mutates the action to kind `AwaitMotd` with refreshed expiration (again the
new entry is appended by the awaiting-actions loop). -/
def endCapabilitiesHandshakeAndAuthenticate (tk : Option Rat) (a : Action) (st : MState) :
    Action × List Out :=
  ({ a with type := .AwaitMotd, expiration := expirationAfter tk a },
   [sendLineToTwitchServer sCapEnd]
     ++ (if st.anonymous then [] else [sendLineToTwitchServer (sPassOauth ++ a.token)])
     ++ [sendLineToTwitchServer (sNickSp ++ a.nickname)])

/-- Model of `Disconnect`: a no-op without a connection; otherwise send the
optional QUIT farewell, disconnect the transport, fire the user `LogOut`
callback, drop the connection, clear `loggedIn`, the awaiting list and the
capability set. -/
def disconnect (st : MState) (farewell : Str) : MState × List Out :=
  if st.connection = false then (st, [])
  else
    ({ st with connection := false, loggedIn := false,
               actionsAwaitingResponses := [], capsSupported := [] },
     (if farewell ≠ [] then [Out.send (sQuitColon ++ farewell ++ CRLF)] else [])
       ++ [Out.transportDisconnect, Out.userLogOut])

/-- Type of action processors (`Impl::ActionProcessor`): given the awaited
action, the inbound message and the session state, return whether the
action completed, the entries the processor pushed onto the awaiting list,
the updated state and the outputs — or `none` on undefined behaviour. -/
def ProcAction : Type :=
  Action → Message → MState → Option (Bool × List Action × MState × List Out)

/-- Model of `ProcessActionLogInCap`.  Under the guard (at least three
parameters and `parameters[1] == "LS"`): a `*` in `parameters[2]` makes the
source read the chunk from `parameters[3]` — an out-of-bounds access
(hence `none`) when there are only three parameters; otherwise
`parameters[2]` is the final chunk, and after merging it the source
*requests* the three Twitch capabilities when all of them are supported
and otherwise skips the request and authenticates directly. -/
def processActionLogInCap (tk : Option Rat) : ProcAction := fun a m st =>
  if m.parameters.length < 3 ∨ m.parameters.getD 1 [] ≠ sLS then
    some (false, [], st, [])
  else if m.parameters.getD 2 [] = sStar then
    match m.parameters.get? 3 with
    | none => none
    | some p3 =>
      some (false, [],
        { st with capsSupported := setInsertMany st.capsSupported (splitChar ' ' p3) }, [])
  else
    let st' := { st with capsSupported :=
                  setInsertMany st.capsSupported (splitChar ' ' (m.parameters.getD 2 [])) }
    if capCommands ∉ st'.capsSupported ∨ capMembership ∉ st'.capsSupported
        ∨ capTags ∉ st'.capsSupported then
      let r := endCapabilitiesHandshakeAndAuthenticate tk a st'
      some (true, [r.1], st', r.2)
    else
      let r := requestCapabilities tk a
      some (true, [r.1], st', r.2)

/-- Model of `ProcessActionRequestCapsCap`: an `ACK` or `NAK` in
`parameters[1]` completes the request stage and authenticates. -/
def processActionRequestCapsCap (tk : Option Rat) : ProcAction := fun a m st =>
  if m.parameters.length < 2
      ∨ (m.parameters.getD 1 [] ≠ sACK ∧ m.parameters.getD 1 [] ≠ sNAK) then
    some (false, [], st, [])
  else
    let r := endCapabilitiesHandshakeAndAuthenticate tk a st
    some (true, [r.1], st, r.2)

/-- Model of `ProcessActionAwaitMotdMotd`: on the first MOTD set `loggedIn`
and fire the user `LogIn` callback; always completes. -/
def processActionAwaitMotdMotd : ProcAction := fun _ _ st =>
  if st.loggedIn then some (true, [], st, [])
  else some (true, [], { st with loggedIn := true }, [Out.userLogIn])

/-- Model of `DiscardAction`: does nothing and returns `false` (so the
containing loop does *not* erase the entry). -/
def discardAction : ProcAction := fun _ _ st =>
  some (false, [], st, [])

/-- Processor table used for `CAP` messages (`capActionProcessors`). -/
def capActionProcessors (tk : Option Rat) : ActionType → Option ProcAction
  | .LogIn => some (processActionLogInCap tk)
  | .RequestCaps => some (processActionRequestCapsCap tk)
  | _ => none

/-- Processor table used for `376` messages (`motdActionProcessors`). -/
def motdActionProcessors : ActionType → Option ProcAction
  | .AwaitMotd => some processActionAwaitMotdMotd
  | _ => none

/-- Processor table used on a login-failure notice
(`loginFailActionProcessors`). -/
def loginFailActionProcessors : ActionType → Option ProcAction
  | .AwaitMotd => some discardAction
  | _ => none

/-- Loop of `ProcessMessageWithAwaitingActions` over a `std::list`: the end
iterator captured before the loop still denotes past-the-end after a
`push_back`, so entries appended by a processor are visited too; a
completed entry is erased, any other is kept.  The fuel only bounds the
number of visits; for the three processor tables of the source a visited
entry appends at most one successor and successors form the finite chain
`LogIn → RequestCaps → AwaitMotd`, so the fuel chosen by the caller is
never exhausted. -/
def processAwaitLoop (procs : ActionType → Option ProcAction) (m : Message) :
    Nat → MState → List Action → Option (MState × List Action × List Out)
  | 0, _, _ => none
  | _ + 1, st, [] => some (st, [], [])
  | fuel + 1, st, a :: rest =>
    match procs a.type with
    | none =>
      match processAwaitLoop procs m fuel st rest with
      | none => none
      | some (st', kept, outs) => some (st', a :: kept, outs)
    | some p =>
      match p a m st with
      | none => none
      | some (completed, newEntries, st', outs) =>
        match processAwaitLoop procs m fuel st' (rest ++ newEntries) with
        | none => none
        | some (st'', kept, outs') =>
          some (st'', (if completed then [] else [a]) ++ kept, outs ++ outs')

/-- Model of `ProcessMessageWithAwaitingActions`: run the loop over the
awaiting list and store the surviving entries back into the state. -/
def processMessageWithAwaitingActions (procs : ActionType → Option ProcAction)
    (m : Message) (st : MState) : Option (MState × List Out) :=
  match processAwaitLoop procs m (st.actionsAwaitingResponses.length * 4 + 16) st
      st.actionsAwaitingResponses with
  | none => none
  | some (st', kept, outs) =>
    some ({ st' with actionsAwaitingResponses := kept }, outs)

/-- Model of `std::string::substr(1)`: drops the first character, throwing
(`none`) on an empty string since the position then exceeds the size. -/
def substrFrom1 : Str → Option Str
  | [] => none
  | _ :: rest => some rest

/-- Model of `HandleServerCommandCap`. -/
def handleServerCommandCap (tk : Option Rat) (m : Message) (st : MState) :
    Option (MState × List Out) :=
  processMessageWithAwaitingActions (capActionProcessors tk) m st

/-- Model of `HandleServerCommandMotd`. -/
def handleServerCommandMotd (m : Message) (st : MState) :
    Option (MState × List Out) :=
  processMessageWithAwaitingActions motdActionProcessors m st

/-- Model of `HandleServerCommandNotice`: build and fire the notice event,
then on a login-failure text while not logged in fire the user `LogOut`
callback and run the awaiting-actions loop with `DiscardAction` for the
`AwaitMotd` entry. -/
def handleServerCommandNotice (m : Message) (st : MState) :
    Option (MState × List Out) :=
  if m.parameters.length < 2 then some (st, [])
  else
    let noticeText := m.parameters.getD 1 []
    match (if m.parameters.getD 0 [] ≠ sStar
           then substrFrom1 (m.parameters.getD 0 []) else some []) with
    | none => none
    | some chan =>
      let notice : NoticeInfo :=
        { channel := chan, message := noticeText,
          id := (mapFind? m.tags.allTags kMsgId).getD [] }
      if st.loggedIn = false
          ∧ (noticeText = nLoginUnsuccessful ∨ noticeText = nLoginAuthFailed) then
        match processMessageWithAwaitingActions loginFailActionProcessors m st with
        | none => none
        | some (st', outs) =>
          some (st', [Out.userNotice notice, Out.userLogOut] ++ outs)
      else some (st, [Out.userNotice notice])

/-- Model of `HandleServerCommandPing`: answer `PONG :<parameters[0]>` when
a connection is held. -/
def handleServerCommandPing (m : Message) (st : MState) : MState × List Out :=
  if m.parameters.length < 1 then (st, [])
  else if st.connection then
    (st, [sendLineToTwitchServer (sPongColon ++ m.parameters.getD 0 [])])
  else (st, [])

/-- Model of `HandleServerCommandHostTarget`.  Under the guards (at least
two parameters, `parameters[0]` of length at least two) the source splits
`parameters[1]` on spaces and reads the split's elements 0 and 1 with
unchecked `operator[]`; when the split has fewer than two pieces that
access is out of bounds (`none`). -/
def handleServerCommandHostTarget (m : Message) : Option (List Out) :=
  if m.parameters.length < 2 ∨ (m.parameters.getD 0 []).length < 2 then some []
  else
    let parts := splitChar ' ' (m.parameters.getD 1 [])
    match parts.get? 0 with
    | none => none
    | some t0 =>
      match parts.get? 1 with
      | none => none
      | some t1 =>
        let base : HostInfo :=
          { hosting := (m.parameters.getD 0 []).drop 1,
            hostOn := ¬ t0 = sDash,
            beingHosted := if t0 = sDash then [] else t0,
            viewers := (parseSizeT t1).getD 0 }
        some [Out.userHost base]

/-- Dispatcher of `PerformActionProcessMessagesReceived` restricted to the
commands that touch the worker session state (`CAP`, `376`, `NOTICE`,
`PING`, `HOSTTARGET`).  The remaining commands of the source's handler
table (`353`, `JOIN`, `PART`, `PRIVMSG`, `WHISPER`, `ROOMSTATE`,
`CLEARCHAT`, `CLEARMSG`, `MODE`, `GLOBALUSERSTATE`, `USERSTATE`,
`RECONNECT`, `USERNOTICE`) only invoke user callbacks and never modify the
session state, and commands outside the table are ignored; both are
modelled as the identity on the state. -/
def dispatchCommand (tk : Option Rat) (m : Message) (st : MState) :
    Option (MState × List Out) :=
  if m.command = cmdCAP then handleServerCommandCap tk m st
  else if m.command = cmdMotd then handleServerCommandMotd m st
  else if m.command = cmdNOTICE then handleServerCommandNotice m st
  else if m.command = cmdPING then some (handleServerCommandPing m st)
  else if m.command = cmdHOSTTARGET then
    match handleServerCommandHostTarget m with
    | none => none
    | some outs => some (st, outs)
  else some (st, [])

/-- Parse-and-dispatch loop of `PerformActionProcessMessagesReceived`.  The
fuel exceeds the buffer length; every parsed line consumes at least the two
CRLF characters and no handler refills the buffer, so the fuel is never
exhausted. -/
def processReceivedLoop (tk : Option Rat) : Nat → MState → Option (MState × List Out)
  | 0, _ => none
  | fuel + 1, st =>
    match messageParse st.dataReceived with
    | none => some (st, [])
    | some (m, rest) =>
      match dispatchCommand tk m { st with dataReceived := rest } with
      | none => none
      | some (st', outs) =>
        match processReceivedLoop tk fuel st' with
        | none => none
        | some (st'', outs') => some (st'', outs ++ outs')

/-- Model of `PerformActionProcessMessagesReceived`: append the received
bytes to `dataReceived`, then parse and dispatch complete lines. -/
def performActionProcessMessagesReceived (tk : Option Rat) (a : Action) (st : MState) :
    Option (MState × List Out) :=
  let st' := { st with dataReceived := st.dataReceived ++ a.message }
  processReceivedLoop tk (st'.dataReceived.length + 1) st'

/-- Model of `PerformActionLogIn`.  A held connection makes it a no-op.
Otherwise the connection factory is invoked — so a transport handle is held
from here on — and `Connect()` is attempted (its outcome is the external
input `connectOk`): on success the capability set is cleared, `anonymous`
is taken from the action, `CAP LS 302` is sent and the action is queued
awaiting the capability list; on failure only the user `LogOut` callback is
invoked — the source keeps the transport handle it just created. -/
def performActionLogIn (tk : Option Rat) (connectOk : Bool) (a : Action) (st : MState) :
    MState × List Out :=
  if st.connection then (st, [])
  else if connectOk then
    ({ st with connection := true, capsSupported := [], anonymous := a.anonymous,
               actionsAwaitingResponses := st.actionsAwaitingResponses
                 ++ [{ a with expiration := expirationAfter tk a }] },
     [sendLineToTwitchServer sCapLs302])
  else
    ({ st with connection := true }, [Out.userLogOut])

/-- Model of `PerformActionJoin`. -/
def performActionJoin (a : Action) (st : MState) : MState × List Out :=
  if st.connection = false then (st, [])
  else (st, [sendLineToTwitchServer (sJoinHash ++ a.nickname)])

/-- Model of `PerformActionLeave`. -/
def performActionLeave (a : Action) (st : MState) : MState × List Out :=
  if st.connection = false then (st, [])
  else (st, [sendLineToTwitchServer (sPartHash ++ a.nickname)])

/-- Model of `PerformActionSendMessage`: nothing without a connection or
when anonymous; otherwise `PRIVMSG`, with the reply-parent tag when the
action has a parent message id. -/
def performActionSendMessage (a : Action) (st : MState) : MState × List Out :=
  if st.connection = false then (st, [])
  else if st.anonymous then (st, [])
  else if a.parent = [] then
    (st, [sendLineToTwitchServer (sPrivmsgHash ++ a.nickname ++ sSpColon ++ a.message)])
  else
    (st, [sendLineToTwitchServer
      (sReplyParent ++ a.parent ++ sSpPrivmsgHash ++ a.nickname ++ sSpColon ++ a.message)])

/-- Model of `PerformActionSendWhisper`: nothing without a connection or
when anonymous; otherwise a `.w` whisper through channel `#jtv`. -/
def performActionSendWhisper (a : Action) (st : MState) : MState × List Out :=
  if st.connection = false then (st, [])
  else if st.anonymous then (st, [])
  else (st, [sendLineToTwitchServer (sWhisperPre ++ a.nickname ++ sSp ++ a.message)])

/-- Model of `PerformAction` (`actionPerformers` table): `RequestCaps` and
`AwaitMotd` have no performer and are ignored. -/
def performAction (tk : Option Rat) (connectOk : Bool) (a : Action) (st : MState) :
    Option (MState × List Out) :=
  match a.type with
  | .LogIn => some (performActionLogIn tk connectOk a st)
  | .LogOut => some (disconnect st a.message)
  | .ProcessMessagesReceived => performActionProcessMessagesReceived tk a st
  | .ServerDisconnected => some (disconnect st [])
  | .Join => some (performActionJoin a st)
  | .Leave => some (performActionLeave a st)
  | .SendMessage => some (performActionSendMessage a st)
  | .SendWhisper => some (performActionSendWhisper a st)
  | _ => some (st, [])

/-- Model of `TimeoutAction` (`actionTimeouts` table): the three handshake
stages disconnect with a stage-appropriate farewell; other kinds have no
timeout handler. -/
def timeoutAction (a : Action) (st : MState) : MState × List Out :=
  match a.type with
  | .LogIn => disconnect st fwCapList
  | .RequestCaps => disconnect st fwCapReq
  | .AwaitMotd => disconnect st fwMotd
  | _ => (st, [])

/-- Model of `ProcessTimeouts`: remove every awaiting entry whose
expiration has passed (`now >= expiration`), then time the removed entries
out in order. -/
def processTimeouts (now : Rat) (st : MState) : MState × List Out :=
  let expired := st.actionsAwaitingResponses.filter (fun a => now ≥ a.expiration)
  let kept := st.actionsAwaitingResponses.filter (fun a => ¬ now ≥ a.expiration)
  expired.foldl
    (fun acc a =>
      let r := timeoutAction a acc.1
      (r.1, acc.2 ++ r.2))
    ({ st with actionsAwaitingResponses := kept }, [])

/-- Tail of the `Worker` loop body: after the drain, clear the awaiting
list whenever the connection is observed absent. -/
def workerFinish (res : Option (MState × List Out)) : Option (MState × List Out) :=
  match res with
  | none => none
  | some (st3, outs) =>
    if st3.connection then some (st3, outs)
    else some ({ st3 with actionsAwaitingResponses := [] }, outs)

/-- One iteration of the `Worker` loop body: run timeout processing when a
clock is configured, drain the queued actions in order, then clear the
awaiting list whenever the connection is observed absent.  `connectOk` is
the outcome `Connect()` would report for a `LogIn` performed during this
drain. -/
def workerStep (tk : Option Rat) (connectOk : Bool) (queue : List Action) (st : MState) :
    Option (MState × List Out) :=
  let t := match tk with
    | some now => processTimeouts now st
    | none => (st, [])
  workerFinish (queue.foldl
    (fun acc a =>
      match acc with
      | none => none
      | some (st1, outs) =>
        match performAction tk connectOk a st1 with
        | none => none
        | some (st2, outs') => some (st2, outs ++ outs'))
    (some (t.1, t.2)))

/-! ### Concrete inputs used by counterexamples and witnesses -/

/-- A pending `LogIn` action for the exercised handshakes. -/
def exLogIn : Action := ⟨.LogIn, "bob".data, "abc".data, [], [], false, 0⟩

/-- Session state awaiting the capability list for `exLogIn`. -/
def exStLoggedOut : MState := ⟨true, [], false, false, [exLogIn], []⟩

/-- Inbound `CAP * LS :twitch.tv/commands twitch.tv/membership twitch.tv/tags`
(final chunk advertising all three capabilities). -/
def exCapAllMsg : Message :=
  ⟨[], cmdCAP,
   [sStar, sLS, "twitch.tv/commands twitch.tv/membership twitch.tv/tags".data],
   emptyTags⟩

/-- Inbound `CAP * LS :twitch.tv/commands` (final chunk advertising only
one capability). -/
def exCapOneMsg : Message := ⟨[], cmdCAP, [sStar, sLS, capCommands], emptyTags⟩

/-- Inbound `CAP * LS *` with no fourth parameter: the continuation marker
with a missing chunk. -/
def exCapContMsg : Message := ⟨[], cmdCAP, [sStar, sLS, sStar], emptyTags⟩

/-- Inbound `CAP * LS * :twitch.tv/commands` (continuation chunk present). -/
def exCapContChunkMsg : Message :=
  ⟨[], cmdCAP, [sStar, sLS, sStar, capCommands], emptyTags⟩

/-- A pending `AwaitMotd` action. -/
def exAwaitMotd : Action := ⟨.AwaitMotd, "bob".data, "abc".data, [], [], false, 0⟩

/-- Session state awaiting the MOTD for `exAwaitMotd`, not logged in. -/
def exStAwait : MState := ⟨true, [], false, false, [exAwaitMotd], []⟩

/-- Inbound `NOTICE * :Login unsuccessful`. -/
def exNoticeMsg : Message := ⟨[], cmdNOTICE, [sStar, nLoginUnsuccessful], emptyTags⟩

/-- Inbound `HOSTTARGET #c :-`: the trailer splits into the single token
`-`. -/
def exHostDashMsg : Message := ⟨[], cmdHOSTTARGET, ["#c".data, sDash], emptyTags⟩

/-- Inbound `HOSTTARGET #c :alice 42`. -/
def exHostMsg : Message := ⟨[], cmdHOSTTARGET, ["#c".data, "alice 42".data], emptyTags⟩

/-- An anonymous `LogIn` action, as posted by `LogInAnonymously`. -/
def exAnonLogIn : Action := ⟨.LogIn, "justinfan12345".data, [], [], [], true, 0⟩

/-- A fresh session state: no connection, nothing pending. -/
def exStFresh : MState := ⟨false, [], false, false, [], []⟩

/-- Session state after performing `exAnonLogIn` on `exStFresh` when
`Connect()` fails. -/
def exStAfterFailedAnonLogIn : MState :=
  (performActionLogIn none false exAnonLogIn exStFresh).1

/-- A `SendMessage` action for channel `room` with text `hi`. -/
def exSendMsg : Action := ⟨.SendMessage, "room".data, [], "hi".data, [], false, 0⟩

/-- A `SendWhisper` action for nickname `bob` with text `hi`. -/
def exSendWhisper : Action := ⟨.SendWhisper, "bob".data, [], "hi".data, [], false, 0⟩

/-- The bytes `PRIVMSG #room :hi` followed by CRLF. -/
def exPrivmsgRoomHi : Str := "PRIVMSG #room :hi\r\n".data

/-- The bytes `PRIVMSG #jtv :.w bob hi` followed by CRLF. -/
def exWhisperBobHi : Str := "PRIVMSG #jtv :.w bob hi\r\n".data

/-- The raw tag string `k=a\;b`: its only `;` is preceded by a backslash. -/
def exTagStr : Str := "k=a\\;b".data

/-- The tag key `k`. -/
def exTagKey : Str := "k".data

/-- The value the code stores for `k` in `exTagStr`: the bytes `a\`. -/
def exTagValCode : Str := "a\\".data

/-- The bytes following `k=` in `exTagStr`: `a\;b`. -/
def exTagAfterEq : Str := "a\\;b".data

/-- A tag fragment suffix `b=2` used as the remainder after a `;`. -/
def exTagRest : Str := "b=2".data

/-- A raw tag value with a backslash and an equal sign, preserved byte for
byte. -/
def exTagVal : Str := "a\\=x".data

/-- The line fragment `PRIVMSG #room ` (command plus one middle parameter,
ending on a space). -/
def exFrontPrivmsg : Str := "PRIVMSG #room ".data

/-- The trailer text `hello world` (contains a space). -/
def exTrailerText : Str := "hello world".data

/-- The line `PRIVMSG :` — a lone `:` trailer yields the single empty
parameter. -/
def exLinePrivmsgColon : Str := "PRIVMSG :".data

/-- The line `CAP * LS` — two parameters, no trailer. -/
def exLineCapLs : Str := "CAP * LS".data

/-- A state with no connection but a (stale) `AwaitMotd` entry, as it can
momentarily exist between a teardown and the worker's next loop
iteration. -/
def exStNoConn : MState := ⟨false, [], false, false, [exAwaitMotd], []⟩

/-! ### Lemmas about CRLF splitting -/

theorem CRLF_eq : CRLF = ['\r', '\n'] := rfl

theorem singleton_prefix_head {x : Char} {l : Str} (h : [x] <+: l) : l.head? = some x := by
  cases l with
  | nil => simp at h
  | cons y ys =>
    rcases (List.cons_prefix_cons).1 h with ⟨hy, -⟩
    rw [hy]
    rfl

theorem crlf_prefix_cons {c : Char} {rest : Str} (h : CRLF <+: c :: rest) :
    c = '\r' ∧ rest.head? = some '\n' := by
  rw [CRLF_eq] at h
  rcases (List.cons_prefix_cons).1 h with ⟨hc, h2⟩
  exact ⟨hc.symm, singleton_prefix_head h2⟩

theorem splitAtCRLF_eq_none {s : Str} :
    splitAtCRLF s = none ↔ ¬ List.IsInfix CRLF s := by
  induction s with
  | nil =>
    simp only [splitAtCRLF, true_iff]
    intro h
    simp [CRLF_eq, List.infix_nil] at h
  | cons c rest ih =>
    by_cases h : c = '\r' ∧ rest.head? = some '\n'
    · simp only [splitAtCRLF, if_pos h]
      obtain ⟨h1, h2⟩ := h
      constructor
      · intro hc; exact absurd hc (by simp)
      · intro hninf
        exfalso
        apply hninf
        obtain ⟨t, ht⟩ : ∃ t, rest = '\n' :: t := by
          cases rest with
          | nil => simp at h2
          | cons d t => simp only [List.head?_cons, Option.some.injEq] at h2; exact ⟨t, by rw [h2]⟩
        subst h1
        rw [ht]
        exact ⟨[], t, by simp [CRLF_eq]⟩
    · simp only [splitAtCRLF, if_neg h, Option.map_eq_none', ih]
      constructor
      · intro hn hinf
        rcases (List.infix_cons_iff).1 hinf with hpre | htail
        · exact h (crlf_prefix_cons hpre)
        · exact hn htail
      · intro hn hinf
        exact hn (List.infix_cons hinf)

theorem splitAtCRLF_eq_some :
    ∀ {s pre post : Str}, splitAtCRLF s = some (pre, post) →
      s = pre ++ CRLF ++ post ∧ ¬ List.IsInfix CRLF pre := by
  intro s
  induction s with
  | nil => intro pre post h; simp [splitAtCRLF] at h
  | cons c rest ih =>
    intro pre post h
    by_cases hc : c = '\r' ∧ rest.head? = some '\n'
    · rw [splitAtCRLF, if_pos hc] at h
      obtain ⟨h1, h2⟩ := hc
      obtain ⟨t, ht⟩ : ∃ t, rest = '\n' :: t := by
        cases rest with
        | nil => simp at h2
        | cons d t => simp only [List.head?_cons, Option.some.injEq] at h2; exact ⟨t, by rw [h2]⟩
      obtain ⟨hpre, hpost⟩ : pre = [] ∧ post = rest.tail := by
        simp only [Option.some.injEq, Prod.mk.injEq] at h
        exact ⟨h.1.symm, h.2.symm⟩
      subst hpre hpost h1
      rw [ht]
      constructor
      · simp [CRLF_eq]
      · simp [CRLF_eq, List.infix_nil]
    · rw [splitAtCRLF, if_neg hc] at h
      rcases (Option.map_eq_some').1 h with ⟨⟨a, b⟩, hab, heq⟩
      simp only [Prod.mk.injEq] at heq
      obtain ⟨hpre, hpost⟩ := heq
      subst hpre hpost
      obtain ⟨hs, hninf⟩ := ih hab
      constructor
      · rw [hs]; simp
      · intro hinf
        rcases (List.infix_cons_iff).1 hinf with hpre | htail
        · obtain ⟨hceq, hhead⟩ := crlf_prefix_cons hpre
          obtain ⟨a', ha'⟩ : ∃ a', a = '\n' :: a' := by
            cases hx : a with
            | nil => rw [hx] at hhead; simp at hhead
            | cons y ys =>
              rw [hx] at hhead
              simp only [List.head?_cons, Option.some.injEq] at hhead
              exact ⟨ys, by rw [hhead]⟩
          apply hc
          refine ⟨hceq, ?_⟩
          rw [hs, ha']
          rfl
        · exact hninf htail

/-! ### Lemmas about the scanning machine -/

theorem runFrom_append (ps : ParseSt) (a b : Str) :
    runFrom ps (a ++ b) = runFrom (runFrom ps a) b := by
  simp [runFrom, List.foldl_append]

theorem runFrom_cons (ps : ParseSt) (c : Char) (t : Str) :
    runFrom ps (c :: t) = runFrom (step ps c) t := rfl

theorem appendLast_concat (a : Str) (c : Char) :
    ∀ xs : List Str, appendLast (xs ++ [a]) c = xs ++ [a ++ [c]] := by
  intro xs
  induction xs with
  | nil => simp [appendLast]
  | cons x xs ih =>
    cases hxs : xs ++ [a] with
    | nil => exact absurd hxs (by simp)
    | cons y ys =>
      simp only [List.cons_append, hxs, appendLast]
      rw [← hxs, ih]

theorem step_trailer {ps : ParseSt} (c : Char) (h : ps.state = .trailer) :
    step ps c = { ps with parameters := appendLast ps.parameters c } := by
  simp [step, h]

theorem step_paramFirst_colon {ps : ParseSt} (h : ps.state = .parameterFirstCharacter) :
    step ps ':' = { ps with state := .trailer, parameters := ps.parameters ++ [[]] } := by
  simp [step, h]

theorem runFrom_trailer_concat (t : Str) :
    ∀ (ps : ParseSt) (xs : List Str) (acc : Str),
      ps.state = .trailer → ps.parameters = xs ++ [acc] →
      runFrom ps t = { ps with parameters := xs ++ [acc ++ t] } := by
  induction t with
  | nil =>
    intro ps xs acc h1 h2
    show ps = { ps with parameters := xs ++ [acc ++ []] }
    rw [List.append_nil, ← h2]
  | cons c t ih =>
    intro ps xs acc h1 h2
    rw [runFrom_cons, step_trailer c h1, h2, appendLast_concat]
    have := ih { ps with parameters := xs ++ [acc ++ [c]] } xs (acc ++ [c]) h1 rfl
    rw [this]
    simp

/-- Claim C9: for every line parsed by `Message::Parse`, a trailing
parameter introduced by `:` when the machine is at the start of a
parameter is returned byte for byte, including embedded spaces, as the
last element of `parameters` (possibly empty), with the `:` marker
removed. -/
theorem claim_c9_trailer_preserved (front t : Str)
    (h : (runFrom initParseSt front).state = .parameterFirstCharacter) :
    (parseLine (front ++ ':' :: t)).parameters
      = (runFrom initParseSt front).parameters ++ [t] := by
  set ps0 := runFrom initParseSt front with hps0
  have h1 : runFrom initParseSt (front ++ ':' :: t) = runFrom (step ps0 ':') t := by
    rw [show front ++ ':' :: t = (front ++ [':']) ++ t by simp, runFrom_append, runFrom_append]
    rfl
  rw [step_paramFirst_colon h] at h1
  have h2 := runFrom_trailer_concat t
    { ps0 with state := .trailer, parameters := ps0.parameters ++ [[]] }
    ps0.parameters [] rfl rfl
  calc (parseLine (front ++ ':' :: t)).parameters
      = (runFrom initParseSt (front ++ ':' :: t)).parameters := by simp only [parseLine]
    _ = (runFrom { ps0 with state := .trailer, parameters := ps0.parameters ++ [[]] } t).parameters := by
        rw [h1]
    _ = ps0.parameters ++ [[] ++ t] := by rw [h2]
    _ = ps0.parameters ++ [t] := by simp

/-- Witness for claim C9 at the line `PRIVMSG #room :hello world`. -/
theorem claim_c9_trailer_preserved_witness :
    (parseLine (exFrontPrivmsg ++ ':' :: exTrailerText)).parameters
      = (runFrom initParseSt exFrontPrivmsg).parameters ++ [exTrailerText] :=
  claim_c9_trailer_preserved exFrontPrivmsg exTrailerText (by decide)

theorem appendLast_dropLast (l : List Str) (c : Char) :
    (appendLast l c).dropLast = l.dropLast := by
  rcases List.eq_nil_or_concat l with h | ⟨xs, a, h⟩ <;> subst h
  · rfl
  · rw [List.concat_eq_append, appendLast_concat, List.dropLast_concat, List.dropLast_concat]

theorem appendLast_forall_ne_nil {l : List Str} {c : Char} (h : ∀ p ∈ l, p ≠ []) :
    ∀ p ∈ appendLast l c, p ≠ [] := by
  rcases List.eq_nil_or_concat l with hl | ⟨xs, a, hl⟩ <;> subst hl
  · simp [appendLast]
  · rw [List.concat_eq_append] at h ⊢
    rw [appendLast_concat]
    intro p hp
    rcases List.mem_append.1 hp with h1 | h2
    · exact h p (List.mem_append.2 (Or.inl h1))
    · simp only [List.mem_singleton] at h2
      subst h2
      simp

theorem step_paramsInv (ps : ParseSt) (c : Char)
    (h1 : ∀ p ∈ ps.parameters.dropLast, p ≠ [])
    (h2 : ps.state ≠ .trailer → ∀ p ∈ ps.parameters, p ≠ []) :
    (∀ p ∈ (step ps c).parameters.dropLast, p ≠ [])
    ∧ ((step ps c).state ≠ .trailer → ∀ p ∈ (step ps c).parameters, p ≠ []) := by
  cases hs : ps.state with
  | trailer =>
    rw [step_trailer c hs]
    refine ⟨?_, ?_⟩
    · simp only [appendLast_dropLast]
      exact h1
    · intro hf
      exact absurd hs hf
  | lineFirstCharacter =>
    have hA := h2 (by simp [hs])
    simp only [step, hs]
    split_ifs <;> exact ⟨h1, fun _ => hA⟩
  | tagsState =>
    have hA := h2 (by simp [hs])
    simp only [step, hs]
    split_ifs <;> exact ⟨h1, fun _ => hA⟩
  | prefixOrCommandFirstCharacter =>
    have hA := h2 (by simp [hs])
    simp only [step, hs]
    split_ifs <;> exact ⟨h1, fun _ => hA⟩
  | prefixPart =>
    have hA := h2 (by simp [hs])
    simp only [step, hs]
    split_ifs <;> exact ⟨h1, fun _ => hA⟩
  | commandFirstCharacter =>
    have hA := h2 (by simp [hs])
    simp only [step, hs]
    split_ifs <;> exact ⟨h1, fun _ => hA⟩
  | commandNotFirstCharacter =>
    have hA := h2 (by simp [hs])
    simp only [step, hs]
    split_ifs <;> exact ⟨h1, fun _ => hA⟩
  | parameterFirstCharacter =>
    have hA := h2 (by simp [hs])
    simp only [step, hs]
    split_ifs with hc1 hc2
    · refine ⟨?_, ?_⟩
      · simp only [List.dropLast_concat]
        exact hA
      · intro hf
        exact absurd rfl hf
    · exact ⟨h1, fun _ => hA⟩
    · refine ⟨?_, ?_⟩
      · simp only [List.dropLast_concat]
        exact hA
      · intro _ p hp
        rcases List.mem_append.1 hp with h | h
        · exact hA p h
        · simp only [List.mem_singleton] at h
          subst h
          simp
  | parameterNotFirstCharacter =>
    have hA := h2 (by simp [hs])
    simp only [step, hs]
    split_ifs with hc
    · exact ⟨h1, fun _ => hA⟩
    · refine ⟨?_, ?_⟩
      · simp only [appendLast_dropLast]
        exact h1
      · intro _
        exact appendLast_forall_ne_nil hA

theorem runFrom_paramsInv (line : Str) :
    ∀ ps : ParseSt, (∀ p ∈ ps.parameters.dropLast, p ≠ []) →
      (ps.state ≠ .trailer → ∀ p ∈ ps.parameters, p ≠ []) →
      (∀ p ∈ (runFrom ps line).parameters.dropLast, p ≠ [])
      ∧ ((runFrom ps line).state ≠ .trailer →
          ∀ p ∈ (runFrom ps line).parameters, p ≠ []) := by
  induction line with
  | nil => intro ps h1 h2; exact ⟨h1, h2⟩
  | cons c t ih =>
    intro ps h1 h2
    rw [runFrom_cons]
    obtain ⟨g1, g2⟩ := step_paramsInv ps c h1 h2
    exact ih (step ps c) g1 g2

/-- Claim C10 (amended): for every parsed message, every parameter other
than the last is non-empty, and when the machine did not finish inside a
trailer every parameter is non-empty — so an empty last parameter arises
only from a `:`-marked trailer; consequently a message with at least *two*
parameters has a non-empty `parameters[0]`, whose first character can be
indexed.  (The original claim asserted this already for any non-empty
parameter list, which fails when the list is a single empty trailer.) -/
theorem claim_c10_amended (line : Str) :
    (∀ p ∈ (parseLine line).parameters.dropLast, p ≠ [])
    ∧ ((runFrom initParseSt line).state ≠ .trailer →
        ∀ p ∈ (parseLine line).parameters, p ≠ [])
    ∧ (2 ≤ (parseLine line).parameters.length →
        (parseLine line).parameters.head? ≠ some []) := by
  obtain ⟨g1, g2⟩ := runFrom_paramsInv line initParseSt (by simp [initParseSt]) (by simp [initParseSt])
  have hparams : (parseLine line).parameters = (runFrom initParseSt line).parameters := by
    simp [parseLine]
  refine ⟨?_, ?_, ?_⟩
  · rw [hparams]; exact g1
  · rw [hparams]; exact g2
  · rw [hparams]
    intro hlen hhead
    rcases hp : (runFrom initParseSt line).parameters with _ | ⟨a, rest⟩
    · rw [hp] at hlen; simp at hlen
    · rw [hp] at hhead
      simp only [List.head?_cons, Option.some.injEq] at hhead
      subst hhead
      rcases rest with _ | ⟨b, rest'⟩
      · rw [hp] at hlen; simp at hlen
      · have hmem : ([] : Str) ∈ ((runFrom initParseSt line).parameters).dropLast := by
          rw [hp]
          simp
        exact g1 [] hmem rfl

/-- Witness for claim C10 (amended) at the line `CAP * LS`: the machine
does not finish in a trailer, every parameter is non-empty, and with two
parameters the first one is non-empty. -/
theorem claim_c10_amended_witness :
    ((runFrom initParseSt exLineCapLs).state ≠ .trailer
      ∧ ∀ p ∈ (parseLine exLineCapLs).parameters, p ≠ [])
    ∧ (2 ≤ (parseLine exLineCapLs).parameters.length
      ∧ (parseLine exLineCapLs).parameters.head? ≠ some []) :=
  ⟨⟨by decide, (claim_c10_amended exLineCapLs).2.1 (by decide)⟩,
   ⟨by decide, (claim_c10_amended exLineCapLs).2.2 (by decide)⟩⟩

/-- Claim C10 counterexample: parsing the line `PRIVMSG :` yields the
parameter list `[""]` — non-empty, with an empty first (and only)
parameter, so indexing the first character of `parameters[0]` is *not* in
bounds for this message with a non-empty parameter list. -/
theorem claim_c10_counterexample :
    (parseLine exLinePrivmsgColon).parameters ≠ []
    ∧ (parseLine exLinePrivmsgColon).parameters.head? = some ([] : Str) := by
  decide

/-! ### Lemmas about the tag parser -/

theorem splitChar_eq_single {d : Char} :
    ∀ {s : Str}, s ≠ [] → d ∉ s → splitChar d s = [s] := by
  intro s
  induction s with
  | nil => intro h _; exact absurd rfl h
  | cons c rest ih =>
    intro _ hmem
    have hc : ¬ c = d := fun h => hmem (by rw [h]; exact List.mem_cons_self _ _)
    simp only [splitChar, if_neg hc]
    cases hr : rest with
    | nil => simp [splitChar]
    | cons y ys =>
      have hrec := ih (by simp [hr]) (fun hm => hmem (List.mem_cons_of_mem _ hm))
      rw [hr] at hrec
      rw [hrec]

theorem splitChar_append_cons (d : Char) (rest : Str) :
    ∀ pre : Str, d ∉ pre → splitChar d (pre ++ d :: rest) = pre :: splitChar d rest := by
  intro pre
  induction pre with
  | nil =>
    intro _
    simp [splitChar]
  | cons c pre' ih =>
    intro hmem
    have hc : ¬ c = d := fun h => hmem (by rw [h]; exact List.mem_cons_self _ _)
    have hih := ih (fun hm => hmem (List.mem_cons_of_mem _ hm))
    simp only [List.cons_append, splitChar, if_neg hc, List.append_eq, hih]

theorem splitNameValueGo_eq_append (v : Str) :
    ∀ (k : Str) (e : Bool) (acc : Str),
      noUnescapedEqFrom e k = true → escScan e k = false →
      splitNameValueGo e acc (k ++ '=' :: v) = (acc.reverse ++ k, v) := by
  intro k
  induction k with
  | nil =>
    intro e acc hno hesc
    simp only [escScan] at hesc
    subst hesc
    simp [splitNameValueGo]
  | cons c k' ih =>
    intro e acc hno hesc
    cases e with
    | true =>
      simp only [noUnescapedEqFrom, if_pos] at hno
      simp only [escScan] at hesc
      simp only [List.cons_append, splitNameValueGo, if_pos, List.append_eq]
      rw [ih false (c :: acc) hno (by simpa using hesc)]
      simp
    | false =>
      by_cases hbs : c = '\\'
      · subst hbs
        simp only [noUnescapedEqFrom, Bool.false_eq_true, if_false, if_pos] at hno
        simp only [List.cons_append, splitNameValueGo, Bool.false_eq_true, if_false, if_pos,
          List.append_eq]
        rw [ih true ('\\' :: acc) hno (by simpa [escScan] using hesc)]
        simp
      · have hne : c ≠ '=' := by
          intro hEq
          rw [hEq] at hno
          simp [noUnescapedEqFrom] at hno
        simp only [noUnescapedEqFrom, Bool.false_eq_true, if_false, if_neg hbs, if_neg hne] at hno
        have hesc' : escScan false k' = false := by
          simpa [escScan, hbs] using hesc
        simp only [List.cons_append, splitNameValueGo, Bool.false_eq_true, if_false,
          if_neg hbs, if_neg hne, List.append_eq]
        rw [ih false (c :: acc) hno hesc']
        simp

theorem splitNameValueGo_no_eq :
    ∀ (k : Str) (e : Bool) (acc : Str), noUnescapedEqFrom e k = true →
      splitNameValueGo e acc k = (acc.reverse ++ k, []) := by
  intro k
  induction k with
  | nil =>
    intro e acc _
    simp [splitNameValueGo]
  | cons c k' ih =>
    intro e acc hno
    cases e with
    | true =>
      simp only [noUnescapedEqFrom, if_pos] at hno
      simp only [splitNameValueGo, if_pos]
      rw [ih false (c :: acc) hno]
      simp
    | false =>
      by_cases hbs : c = '\\'
      · subst hbs
        simp only [noUnescapedEqFrom, Bool.false_eq_true, if_false, if_pos] at hno
        simp only [splitNameValueGo, Bool.false_eq_true, if_false, if_pos]
        rw [ih true ('\\' :: acc) hno]
        simp
      · have hne : c ≠ '=' := by
          intro hEq
          rw [hEq] at hno
          simp [noUnescapedEqFrom] at hno
        simp only [noUnescapedEqFrom, Bool.false_eq_true, if_false, if_neg hbs,
          if_neg hne] at hno
        simp only [splitNameValueGo, Bool.false_eq_true, if_false, if_neg hbs, if_neg hne]
        rw [ih false (c :: acc) hno]
        simp

theorem mapFind?_mapInsert_self (m : List (Str × Str)) (k v : Str) :
    mapFind? (mapInsert m k v) k = some v := by
  induction m with
  | nil => simp [mapInsert, mapFind?]
  | cons p rest ih =>
    obtain ⟨k', v'⟩ := p
    by_cases h : k' = k
    · subst h
      simp [mapInsert, mapFind?]
    · simp [mapInsert, mapFind?, h, ih]

theorem mapFind?_mapInsert_ne (m : List (Str × Str)) (k' v' k : Str) (h : k' ≠ k) :
    mapFind? (mapInsert m k' v') k = mapFind? m k := by
  induction m with
  | nil => simp [mapInsert, mapFind?, h]
  | cons p rest ih =>
    obtain ⟨a, b⟩ := p
    by_cases ha : a = k'
    · subst ha
      simp [mapInsert, mapFind?, h]
    · simp [mapInsert, mapFind?, ha, ih]

theorem tagsFoldl_preserve (k : Str) :
    ∀ (frags : List Str) (ti : TagsInfo),
      (∀ f ∈ frags, (splitNameValue f).1 ≠ k) →
      mapFind? ((frags.foldl (fun ti frag =>
          let nv := splitNameValue frag
          (⟨mapInsert ti.allTags nv.1 nv.2⟩ : TagsInfo)) ti)).allTags k
        = mapFind? ti.allTags k := by
  intro frags
  induction frags with
  | nil => intro ti _; rfl
  | cons f fs ih =>
    intro ti hf
    rw [List.foldl_cons]
    rw [ih _ (fun g hg => hf g (List.mem_cons_of_mem _ hg))]
    exact mapFind?_mapInsert_ne _ _ _ _ (hf f (List.mem_cons_self _ _))

/-- Claim C6 (amended): each tag fragment is split at the first equal sign
preceded by an even number of backslashes (absent `=` yielding an empty
value), but the tag string is cut into fragments at *every* `;`, escaped
or not; so for any tag key (in particular one not in the typed set)
`all_tags[k]` equals the exact raw substring between the `=` and the next
`;` — not the next *unescaped* `;` — byte for byte and without
unescaping.  Stated for a key whose fragment is first: the value is
returned verbatim whether the fragment is followed by further fragments
or ends the string, and an absent `=` yields the empty value. -/
theorem claim_c6_amended (k v rest : Str)
    (h1 : noUnescapedEq k = true) (h2 : escAfter k = false)
    (h3 : ';' ∉ k) (h4 : ';' ∉ v) (h5 : k ∉ tagNames rest)
    (h6 : k ∉ typedTagKeys) (h7 : k ≠ []) :
    mapFind? (parseTags (k ++ '=' :: (v ++ ';' :: rest))).allTags k = some v
    ∧ mapFind? (parseTags (k ++ '=' :: v)).allTags k = some v
    ∧ mapFind? (parseTags k).allTags k = some [] := by
  have hnosemi : ';' ∉ k ++ '=' :: v := by
    intro hm
    rcases List.mem_append.1 hm with h | h
    · exact h3 h
    · rcases List.mem_cons.1 h with h | h
      · exact absurd h (by decide)
      · exact h4 h
  have hne : k ++ '=' :: v ≠ [] := by simp
  have hnv : splitNameValue (k ++ '=' :: v) = (k, v) := by
    rw [splitNameValue, splitNameValueGo_eq_append v k false [] h1 h2]
    simp
  have hfragsne : ∀ f ∈ splitChar ';' rest, (splitNameValue f).1 ≠ k := by
    intro f hf hEq
    exact h5 (by rw [← hEq]; exact List.mem_map_of_mem _ hf)
  refine ⟨?_, ?_, ?_⟩
  · have hsp : splitChar ';' (k ++ '=' :: (v ++ ';' :: rest))
        = (k ++ '=' :: v) :: splitChar ';' rest := by
      rw [show k ++ '=' :: (v ++ ';' :: rest) = (k ++ '=' :: v) ++ ';' :: rest by simp,
        splitChar_append_cons _ _ _ hnosemi]
    rw [parseTags, hsp, List.foldl_cons, tagsFoldl_preserve k _ _ hfragsne]
    simp only [hnv]
    simp [emptyTags, mapInsert, mapFind?]
  · have hsp : splitChar ';' (k ++ '=' :: v) = [k ++ '=' :: v] :=
      splitChar_eq_single hne hnosemi
    rw [parseTags, hsp, List.foldl_cons, List.foldl_nil]
    simp only [hnv]
    simp [emptyTags, mapInsert, mapFind?]
  · have hsp : splitChar ';' k = [k] := splitChar_eq_single h7 h3
    have hnvk : splitNameValue k = (k, []) := by
      rw [splitNameValue, splitNameValueGo_no_eq k false [] h1]
      simp
    rw [parseTags, hsp, List.foldl_cons, List.foldl_nil]
    simp only [hnvk]
    simp [emptyTags, mapInsert, mapFind?]

/-- Witness for claim C6 (amended) at the key `k` and the raw value
`a\=x` (kept byte for byte, backslash and equal sign included), with the
remainder `b=2`. -/
theorem claim_c6_amended_witness :
    mapFind? (parseTags (exTagKey ++ '=' :: (exTagVal ++ ';' :: exTagRest))).allTags exTagKey
      = some exTagVal
    ∧ mapFind? (parseTags (exTagKey ++ '=' :: exTagVal)).allTags exTagKey = some exTagVal
    ∧ mapFind? (parseTags exTagKey).allTags exTagKey = some [] :=
  claim_c6_amended exTagKey exTagVal exTagRest (by decide) (by decide) (by decide)
    (by decide) (by decide) (by decide) (by decide)

/-- Claim C6 counterexample: in the tag string `k=a\;b` the only `;` is
preceded by a backslash, so the substring between `=` and the next
*unescaped* `;` is the whole remainder `a\;b`; the code instead cuts at
the escaped `;` and stores `a\` for the untyped key `k`. -/
theorem claim_c6_counterexample :
    exTagStr = exTagKey ++ '=' :: exTagAfterEq
    ∧ valueToNextUnescapedSemicolon exTagAfterEq = exTagAfterEq
    ∧ mapFind? (parseTags exTagStr).allTags exTagKey = some exTagValCode
    ∧ exTagValCode ≠ exTagAfterEq
    ∧ exTagKey ∉ typedTagKeys := by
  decide

/-! ### Lemmas about the worker handlers -/

theorem get?_eq_some_getD {α : Type} (l : List α) (n : Nat) (d : α) (h : n < l.length) :
    l.get? n = some (l.getD n d) := by
  rcases hx : l.get? n with _ | x
  · rw [List.get?_eq_none] at hx
    omega
  · rw [List.getD_eq_get?, hx]
    rfl

/-- Claim C4 (amended): under the guard (at least three parameters and
`parameters[1] == "LS"`), when `parameters[2] == "*"` the continuation
branch reads the capability chunk from `parameters[3]`; that access is
within bounds for every such message that has at least *four* parameters,
and the handler then merges the chunk and stays waiting.  (For a
guard-satisfying message with exactly three parameters the access is out
of bounds, refuting the original totality claim.) -/
theorem claim_c4_amended (tk : Option Rat) (a : Action) (m : Message) (st : MState)
    (hlen : 4 ≤ m.parameters.length)
    (hls : m.parameters.getD 1 [] = sLS)
    (hcont : m.parameters.getD 2 [] = sStar) :
    processActionLogInCap tk a m st = some (false, [],
      { st with capsSupported :=
          setInsertMany st.capsSupported (splitChar ' ' (m.parameters.getD 3 [])) }, []) := by
  have hguard : ¬ (m.parameters.length < 3 ∨ m.parameters.getD 1 [] ≠ sLS) := by
    push_neg
    exact ⟨by omega, hls⟩
  have h3 : m.parameters.get? 3 = some (m.parameters.getD 3 []) :=
    get?_eq_some_getD _ _ _ (by omega)
  simp only [processActionLogInCap, if_neg hguard, if_pos hcont, h3]

/-- Witness for claim C4 (amended) at `CAP * LS * :twitch.tv/commands`. -/
theorem claim_c4_amended_witness :
    processActionLogInCap none exLogIn exCapContChunkMsg exStLoggedOut
      = some (false, [],
        { exStLoggedOut with capsSupported :=
            (setInsertMany exStLoggedOut.capsSupported
              (splitChar ' ' (exCapContChunkMsg.parameters.getD 3 []))) }, []) :=
  claim_c4_amended none exLogIn exCapContChunkMsg exStLoggedOut
    (by decide) (by decide) (by decide)

/-- Claim C4 counterexample: the message `CAP * LS *` satisfies the
guard (three parameters, `parameters[1] == "LS"`) and takes the
continuation branch, but has no `parameters[3]` — the source's read of
`parameters[3]` is out of bounds, modelled as `none`. -/
theorem claim_c4_counterexample :
    processActionLogInCap none exLogIn exCapContMsg exStLoggedOut = none := by
  decide

/-- Claim C3 (amended): a `HOSTTARGET` message passing the parameter
guards has `parameters[1]` split on spaces; *when the split yields at
least two tokens*, hosting stops when the first token is `-` (otherwise
`beingHosted` is the first token), the second token is parsed as the
viewer count defaulting to 0 on parse failure, and `Host` is invoked.
(When the split yields fewer than two tokens — in particular only one —
the source's access to the second token is out of bounds, refuting the
original in-bounds claim.) -/
theorem claim_c3_amended (m : Message)
    (h1 : 2 ≤ m.parameters.length)
    (h2 : 2 ≤ (m.parameters.getD 0 []).length)
    (hsplit : 2 ≤ (splitChar ' ' (m.parameters.getD 1 [])).length) :
    handleServerCommandHostTarget m = some [Out.userHost
      { hosting := (m.parameters.getD 0 []).drop 1,
        hostOn := ¬ (splitChar ' ' (m.parameters.getD 1 [])).getD 0 [] = sDash,
        beingHosted := if (splitChar ' ' (m.parameters.getD 1 [])).getD 0 [] = sDash then []
          else (splitChar ' ' (m.parameters.getD 1 [])).getD 0 [],
        viewers := (parseSizeT ((splitChar ' ' (m.parameters.getD 1 [])).getD 1 [])).getD 0 }] := by
  have hguard : ¬ (m.parameters.length < 2 ∨ (m.parameters.getD 0 []).length < 2) := by
    push_neg
    exact ⟨by omega, by omega⟩
  have h0 : (splitChar ' ' (m.parameters.getD 1 [])).get? 0
      = some ((splitChar ' ' (m.parameters.getD 1 [])).getD 0 []) :=
    get?_eq_some_getD _ _ _ (by omega)
  have ht1 : (splitChar ' ' (m.parameters.getD 1 [])).get? 1
      = some ((splitChar ' ' (m.parameters.getD 1 [])).getD 1 []) :=
    get?_eq_some_getD _ _ _ (by omega)
  simp only [handleServerCommandHostTarget, if_neg hguard, h0, ht1]

/-- Witness for claim C3 (amended) at `HOSTTARGET #c :alice 42`. -/
theorem claim_c3_amended_witness :
    handleServerCommandHostTarget exHostMsg = some [Out.userHost
      { hosting := (exHostMsg.parameters.getD 0 []).drop 1,
        hostOn := ¬ (splitChar ' ' (exHostMsg.parameters.getD 1 [])).getD 0 [] = sDash,
        beingHosted := if (splitChar ' ' (exHostMsg.parameters.getD 1 [])).getD 0 [] = sDash
          then [] else (splitChar ' ' (exHostMsg.parameters.getD 1 [])).getD 0 [],
        viewers :=
          (parseSizeT ((splitChar ' ' (exHostMsg.parameters.getD 1 [])).getD 1 [])).getD 0 }] :=
  claim_c3_amended exHostMsg (by decide) (by decide) (by decide)

/-- Claim C3 counterexample: the message `HOSTTARGET #c :-` passes both
guards, yet splitting its `parameters[1]` on spaces yields the single
token `-`, and the source's unchecked read of the second token is out of
bounds, modelled as `none` — the original claim asserted the access is in
bounds even when the split yields only one token. -/
theorem claim_c3_counterexample :
    handleServerCommandHostTarget exHostDashMsg = none := by
  decide

theorem processActionLogInCap_final_all (tk : Option Rat) (a : Action) (m : Message)
    (st : MState)
    (hlen : 3 ≤ m.parameters.length)
    (hls : m.parameters.getD 1 [] = sLS)
    (hfin : m.parameters.getD 2 [] ≠ sStar)
    (hall : capCommands ∈ setInsertMany st.capsSupported (splitChar ' ' (m.parameters.getD 2 []))
      ∧ capMembership ∈ setInsertMany st.capsSupported (splitChar ' ' (m.parameters.getD 2 []))
      ∧ capTags ∈ setInsertMany st.capsSupported (splitChar ' ' (m.parameters.getD 2 []))) :
    processActionLogInCap tk a m st = some (true,
      [{ a with type := .RequestCaps, expiration := expirationAfter tk a }],
      { st with capsSupported :=
          (setInsertMany st.capsSupported (splitChar ' ' (m.parameters.getD 2 []))) },
      [Out.send (sCapReq ++ CRLF)]) := by
  have hguard : ¬ (m.parameters.length < 3 ∨ m.parameters.getD 1 [] ≠ sLS) := by
    push_neg
    exact ⟨by omega, hls⟩
  simp only [processActionLogInCap, if_neg hguard, if_neg hfin, requestCapabilities,
    sendLineToTwitchServer]
  rw [if_neg]
  simp only [not_or, not_not]
  exact ⟨hall.1, hall.2.1, hall.2.2⟩

theorem processActionLogInCap_final_missing (tk : Option Rat) (a : Action) (m : Message)
    (st : MState)
    (hlen : 3 ≤ m.parameters.length)
    (hls : m.parameters.getD 1 [] = sLS)
    (hfin : m.parameters.getD 2 [] ≠ sStar)
    (hmiss : ¬ (capCommands ∈ setInsertMany st.capsSupported (splitChar ' ' (m.parameters.getD 2 []))
      ∧ capMembership ∈ setInsertMany st.capsSupported (splitChar ' ' (m.parameters.getD 2 []))
      ∧ capTags ∈ setInsertMany st.capsSupported (splitChar ' ' (m.parameters.getD 2 [])))) :
    processActionLogInCap tk a m st = some (true,
      [{ a with type := .AwaitMotd, expiration := expirationAfter tk a }],
      { st with capsSupported :=
          (setInsertMany st.capsSupported (splitChar ' ' (m.parameters.getD 2 []))) },
      [Out.send (sCapEnd ++ CRLF)]
        ++ (if st.anonymous then [] else [Out.send (sPassOauth ++ a.token ++ CRLF)])
        ++ [Out.send (sNickSp ++ a.nickname ++ CRLF)]) := by
  have hguard : ¬ (m.parameters.length < 3 ∨ m.parameters.getD 1 [] ≠ sLS) := by
    push_neg
    exact ⟨by omega, hls⟩
  simp only [processActionLogInCap, if_neg hguard, if_neg hfin,
    endCapabilitiesHandshakeAndAuthenticate, sendLineToTwitchServer]
  rw [if_pos]
  simp only [not_and_or] at hmiss
  rcases hmiss with h | h | h
  · exact Or.inl h
  · exact Or.inr (Or.inl h)
  · exact Or.inr (Or.inr h)

theorem processAwaitLoop_one_then_skip (procs : ActionType → Option ProcAction) (m : Message)
    (fuel : Nat) (st st' : MState) (a a' : Action) (outs : List Out)
    (p : ProcAction) (hp : procs a.type = some p)
    (hr : p a m st = some (true, [a'], st', outs))
    (h2 : procs a'.type = none
      ∨ ∃ q, procs a'.type = some q ∧ q a' m st' = some (false, [], st', [])) :
    processAwaitLoop procs m (fuel + 1 + 1 + 1) st [a] = some (st', [a'], outs) := by
  rcases h2 with h2 | ⟨q, hq, hqr⟩
  · simp only [processAwaitLoop, hp, hr, h2, List.nil_append]
    simp
  · simp only [processAwaitLoop, hp, hr, hq, hqr, List.nil_append, List.append_nil]
    simp

/-- Claim C1 (amended): when the worker processes the final `CAP LS`
chunk of a pending `LogIn` handshake, after merging the chunk into
`caps_supported`: if `caps_supported` now contains all three of
`twitch.tv/commands`, `twitch.tv/membership` and `twitch.tv/tags`, the
source sends `CAP REQ :twitch.tv/commands twitch.tv/membership
twitch.tv/tags` and the waiting entry's kind becomes `RequestCaps` with
its expiration reset; otherwise *no* `CAP REQ` is sent and the handshake
proceeds directly to `CAP END`/authentication, the waiting entry becoming
`AwaitMotd`.  (This is the exact inverse of the original claim's
branches.) -/
theorem claim_c1_amended (tk : Option Rat) (a : Action) (m : Message) (st : MState)
    (ha : a.type = .LogIn)
    (hlist : st.actionsAwaitingResponses = [a])
    (hlen : 3 ≤ m.parameters.length)
    (hls : m.parameters.getD 1 [] = sLS)
    (hfin : m.parameters.getD 2 [] ≠ sStar) :
    ((capCommands ∈ setInsertMany st.capsSupported (splitChar ' ' (m.parameters.getD 2 []))
      ∧ capMembership ∈ setInsertMany st.capsSupported (splitChar ' ' (m.parameters.getD 2 []))
      ∧ capTags ∈ setInsertMany st.capsSupported (splitChar ' ' (m.parameters.getD 2 []))) →
      handleServerCommandCap tk m st = some
        ({ st with
            capsSupported :=
              (setInsertMany st.capsSupported (splitChar ' ' (m.parameters.getD 2 []))),
            actionsAwaitingResponses :=
              [{ a with type := .RequestCaps, expiration := expirationAfter tk a }] },
         [Out.send (sCapReq ++ CRLF)]))
    ∧ (¬ (capCommands ∈ setInsertMany st.capsSupported (splitChar ' ' (m.parameters.getD 2 []))
      ∧ capMembership ∈ setInsertMany st.capsSupported (splitChar ' ' (m.parameters.getD 2 []))
      ∧ capTags ∈ setInsertMany st.capsSupported (splitChar ' ' (m.parameters.getD 2 []))) →
      handleServerCommandCap tk m st = some
        ({ st with
            capsSupported :=
              (setInsertMany st.capsSupported (splitChar ' ' (m.parameters.getD 2 []))),
            actionsAwaitingResponses :=
              [{ a with type := .AwaitMotd, expiration := expirationAfter tk a }] },
         [Out.send (sCapEnd ++ CRLF)]
           ++ (if st.anonymous then [] else [Out.send (sPassOauth ++ a.token ++ CRLF)])
           ++ [Out.send (sNickSp ++ a.nickname ++ CRLF)])) := by
  have hp : capActionProcessors tk a.type = some (processActionLogInCap tk) := by
    rw [ha]
    rfl
  constructor
  · intro hall
    have hproc := processActionLogInCap_final_all tk a m st hlen hls hfin hall
    have hskip : capActionProcessors tk
        ({ a with type := .RequestCaps, expiration := expirationAfter tk a } : Action).type
          = some (processActionRequestCapsCap tk) := rfl
    have hq : processActionRequestCapsCap tk
        { a with type := .RequestCaps, expiration := expirationAfter tk a } m
        { st with capsSupported :=
            (setInsertMany st.capsSupported (splitChar ' ' (m.parameters.getD 2 []))) }
        = some (false, [],
          { st with capsSupported :=
              (setInsertMany st.capsSupported (splitChar ' ' (m.parameters.getD 2 []))) },
          []) := by
      simp only [processActionRequestCapsCap]
      rw [if_pos]
      exact Or.inr ⟨by rw [hls]; decide, by rw [hls]; decide⟩
    have hloop := processAwaitLoop_one_then_skip (capActionProcessors tk) m 17 st
      _ a _ _ _ hp hproc (Or.inr ⟨_, hskip, hq⟩)
    simp only [handleServerCommandCap, processMessageWithAwaitingActions, hlist,
      List.length_cons, List.length_nil]
    rw [show (0 + 1) * 4 + 16 = 17 + 1 + 1 + 1 by norm_num]
    rw [hloop]
  · intro hmiss
    have hproc := processActionLogInCap_final_missing tk a m st hlen hls hfin hmiss
    have hskip : capActionProcessors tk
        ({ a with type := .AwaitMotd, expiration := expirationAfter tk a } : Action).type
          = none := rfl
    have hloop := processAwaitLoop_one_then_skip (capActionProcessors tk) m 17 st
      _ a _ _ _ hp hproc (Or.inl hskip)
    simp only [handleServerCommandCap, processMessageWithAwaitingActions, hlist,
      List.length_cons, List.length_nil]
    rw [show (0 + 1) * 4 + 16 = 17 + 1 + 1 + 1 by norm_num]
    rw [hloop]

/-- Witness for claim C1 (amended): with all three capabilities in the
final chunk the source answers `CAP REQ` and the entry becomes
`RequestCaps`; with only one capability advertised it proceeds straight
to `CAP END`, `PASS`, `NICK` and the entry becomes `AwaitMotd`. -/
theorem claim_c1_amended_witness :
    handleServerCommandCap none exCapAllMsg exStLoggedOut = some
      ({ exStLoggedOut with
          capsSupported :=
            (setInsertMany exStLoggedOut.capsSupported
              (splitChar ' ' (exCapAllMsg.parameters.getD 2 []))),
          actionsAwaitingResponses :=
            [{ exLogIn with type := .RequestCaps, expiration := expirationAfter none exLogIn }] },
       [Out.send (sCapReq ++ CRLF)])
    ∧ handleServerCommandCap none exCapOneMsg exStLoggedOut = some
      ({ exStLoggedOut with
          capsSupported :=
            (setInsertMany exStLoggedOut.capsSupported
              (splitChar ' ' (exCapOneMsg.parameters.getD 2 []))),
          actionsAwaitingResponses :=
            [{ exLogIn with type := .AwaitMotd, expiration := expirationAfter none exLogIn }] },
       [Out.send (sCapEnd ++ CRLF)]
         ++ (if exStLoggedOut.anonymous then []
             else [Out.send (sPassOauth ++ exLogIn.token ++ CRLF)])
         ++ [Out.send (sNickSp ++ exLogIn.nickname ++ CRLF)]) :=
  ⟨(claim_c1_amended none exLogIn exCapAllMsg exStLoggedOut rfl rfl
      (by decide) (by decide) (by decide)).1 (by decide),
   (claim_c1_amended none exLogIn exCapOneMsg exStLoggedOut rfl rfl
      (by decide) (by decide) (by decide)).2 (by decide)⟩

/-- Claim C1 counterexample: on the final `CAP LS` chunk advertising all
three capabilities (so that after the merge `caps_supported` contains all
of them), the source *does* send `CAP REQ` — the claim said that in this
situation no `CAP REQ` is sent and the handshake goes directly to
`CAP END`. -/
theorem claim_c1_counterexample :
    (capCommands ∈ setInsertMany exStLoggedOut.capsSupported
        (splitChar ' ' (exCapAllMsg.parameters.getD 2 []))
      ∧ capMembership ∈ setInsertMany exStLoggedOut.capsSupported
        (splitChar ' ' (exCapAllMsg.parameters.getD 2 []))
      ∧ capTags ∈ setInsertMany exStLoggedOut.capsSupported
        (splitChar ' ' (exCapAllMsg.parameters.getD 2 [])))
    ∧ (handleServerCommandCap none exCapAllMsg exStLoggedOut).map (fun r => r.2)
        = some [Out.send (sCapReq ++ CRLF)]
    ∧ (handleServerCommandCap none exCapAllMsg exStLoggedOut).map
        (fun r => r.1.actionsAwaitingResponses.map Action.type)
        = some [ActionType.RequestCaps] := by
  refine ⟨by decide, ?_, ?_⟩ <;> decide

/-- Claim C5: for every byte string given as the receive buffer,
`Message::Parse` either returns a parsed message and removes from the
buffer exactly the prefix up to and including the first CRLF (the returned
message being the parse of that prefix), or returns no message and leaves
the buffer unchanged — which happens exactly when the buffer contains no
CRLF. -/
theorem claim_c5_parser_totality (s : Str) :
    (∃ pre rest, messageParse s = some (parseLine pre, rest)
       ∧ s = pre ++ CRLF ++ rest ∧ ¬ List.IsInfix CRLF pre)
    ∨ (messageParse s = none ∧ ¬ List.IsInfix CRLF s) := by
  cases hsp : splitAtCRLF s with
  | none =>
    right
    constructor
    · simp [messageParse, hsp]
    · exact splitAtCRLF_eq_none.1 hsp
  | some p =>
    obtain ⟨pre, post⟩ := p
    left
    obtain ⟨hs, hninf⟩ := splitAtCRLF_eq_some hsp
    exact ⟨pre, post, by simp [messageParse, hsp], hs, hninf⟩

/-- Claim C2, evaluated at the failing input: an inbound
`NOTICE * :Login unsuccessful` while not logged in, with an `AwaitMotd`
entry pending, fires the user `Notice` and `LogOut` callbacks — but the
`AwaitMotd` entry is *not* removed from `actions_awaiting_responses`: the
resulting state is the input state unchanged, `AwaitMotd` entry included,
because `DiscardAction` returns `false` and
`ProcessMessageWithAwaitingActions` only erases entries whose processor
returns `true`. -/
theorem claim_c2_code_bug_eval :
    handleServerCommandNotice exNoticeMsg exStAwait
      = some (exStAwait, [Out.userNotice ⟨[], nLoginUnsuccessful, []⟩, Out.userLogOut])
    ∧ exStAwait.loggedIn = false
    ∧ exStAwait.actionsAwaitingResponses = [exAwaitMotd]
    ∧ exAwaitMotd.type = .AwaitMotd := by
  refine ⟨?_, ?_, ?_, ?_⟩ <;> decide

/-- Claim C7, evaluated at the failing input: performing an anonymous
`LogIn` on a fresh session whose `Connect()` fails leaves the transport
handle held (`connection` non-null) and the `anonymous` flag still false
— the flag is assigned only on connect success — so a subsequent
`SendMessage` or `SendWhisper` *does* call `Send` on the connection,
contradicting the claim that no `Send` call is made after a login
performed with the anonymous flag set. -/
theorem claim_c7_code_bug_eval :
    (performActionLogIn none false exAnonLogIn exStFresh).2 = [Out.userLogOut]
    ∧ exStAfterFailedAnonLogIn.connection = true
    ∧ exStAfterFailedAnonLogIn.anonymous = false
    ∧ (performActionSendMessage exSendMsg exStAfterFailedAnonLogIn).2
        = [Out.send exPrivmsgRoomHi]
    ∧ (performActionSendWhisper exSendWhisper exStAfterFailedAnonLogIn).2
        = [Out.send exWhisperBobHi] := by
  refine ⟨?_, ?_, ?_, ?_, ?_⟩ <;> decide

theorem workerFinish_clears (X : Option (MState × List Out)) (r : MState × List Out)
    (hw : workerFinish X = some r) (hconn : r.1.connection = false) :
    r.1.actionsAwaitingResponses = [] := by
  rcases X with _ | ⟨st3, outs⟩
  · simp [workerFinish] at hw
  · simp only [workerFinish] at hw
    split at hw
    · injection hw with h2
      subst h2
      simp_all
    · injection hw with h2
      subst h2
      rfl

/-- Claim C8: the invariant that `actions_awaiting_responses` is non-empty
only while a connection is present is preserved by every worker step —
after any worker loop iteration that observes the connection absent the
awaiting list is empty, and `Disconnect`, whenever it drops a held
connection, leaves the connection absent with the awaiting list
cleared. -/
theorem claim_c8_awaiting_requires_connection :
    (∀ (tk : Option Rat) (connectOk : Bool) (queue : List Action) (st : MState)
        (r : MState × List Out),
      workerStep tk connectOk queue st = some r → r.1.connection = false →
        r.1.actionsAwaitingResponses = [])
    ∧ (∀ (st : MState) (farewell : Str), st.connection = true →
        (disconnect st farewell).1.connection = false
        ∧ (disconnect st farewell).1.actionsAwaitingResponses = []) := by
  constructor
  · intro tk connectOk queue st r hw hconn
    unfold workerStep at hw
    exact workerFinish_clears _ r hw hconn
  · intro st farewell hc
    constructor <;> simp [disconnect, hc]

/-- Witness for claim C8: a worker step on a state with no connection but
a stale `AwaitMotd` entry ends with the awaiting list empty, and a
`Disconnect` on a connected state drops the connection and clears the
list. -/
theorem claim_c8_awaiting_requires_connection_witness :
    ((⟨false, [], false, false, [], []⟩ : MState), ([] : List Out)).1.actionsAwaitingResponses = []
    ∧ ((disconnect exStAwait []).1.connection = false
      ∧ (disconnect exStAwait []).1.actionsAwaitingResponses = []) :=
  ⟨claim_c8_awaiting_requires_connection.1 none true [] exStNoConn
      (⟨false, [], false, false, [], []⟩, []) (by decide) (by decide),
   claim_c8_awaiting_requires_connection.2 exStAwait [] (by decide)⟩

end Twitch
